import Mathlib

/-!
Shallow embedding of the pemattern/launcher sources.

Strings are modelled as lists of characters. Rust String comparison is
lexicographic on UTF-8 bytes, which agrees with code-point order, so the
lexicographic order on character lists below is a faithful model.
-/

namespace LauncherSpec

/-- Character-wise lowercase, modelling Rust str::to_lowercase as applied
to application names and filter text. -/
def toLowerStr (s : List Char) : List Char := s.map Char.toLower

/-- Rust str::contains for a string pattern: the pattern occurs as a
contiguous substring of the haystack. -/
def containsStr (hay pat : List Char) : Bool :=
  (List.range (hay.length + 1)).any (fun i => decide ((hay.drop i).take pat.length = pat))

/-- Lexicographic less-or-equal on strings. Rust Ord for String compares
bytes lexicographically; lexLe a b is true exactly when cmp(a, b) is not
Greater. -/
def lexLe : List Char → List Char → Bool
  | [], _ => true
  | _ :: _, [] => false
  | x :: xs, y :: ys => if x < y then true else if y < x then false else lexLe xs ys

theorem containsStr_nil (hay : List Char) : containsStr hay [] = true := by
  unfold containsStr
  refine List.any_eq_true.mpr ⟨0, ?_, ?_⟩
  · exact List.mem_range.mpr (Nat.succ_pos _)
  · simp

theorem lexLe_total (a b : List Char) : lexLe a b = true ∨ lexLe b a = true := by
  induction a generalizing b with
  | nil => left; rfl
  | cons x xs ih =>
    cases b with
    | nil => right; rfl
    | cons y ys =>
      rcases lt_trichotomy x y with h | h | h
      · left; simp [lexLe, h]
      · subst h
        rcases ih ys with h2 | h2
        · left; simp [lexLe, lt_self_iff_false, h2]
        · right; simp [lexLe, lt_self_iff_false, h2]
      · right; simp [lexLe, h]

theorem lexLe_trans (a b c : List Char) (hab : lexLe a b = true) (hbc : lexLe b c = true) :
    lexLe a c = true := by
  induction a generalizing b c with
  | nil => rfl
  | cons x xs ih =>
    cases b with
    | nil => simp [lexLe] at hab
    | cons y ys =>
      cases c with
      | nil => simp [lexLe] at hbc
      | cons z zs =>
        by_cases hxy : x < y
        · by_cases hyz : y < z
          · simp [lexLe, lt_trans hxy hyz]
          · by_cases hzy : z < y
            · simp [lexLe, hyz, hzy] at hbc
            · have h2 : y = z := le_antisymm (not_lt.mp hzy) (not_lt.mp hyz)
              subst h2
              simp [lexLe, hxy]
        · by_cases hyx : y < x
          · simp [lexLe, hxy, hyx] at hab
          · have h1 : x = y := le_antisymm (not_lt.mp hyx) (not_lt.mp hxy)
            subst h1
            simp [lexLe, lt_self_iff_false] at hab
            by_cases hxz : x < z
            · simp [lexLe, hxz]
            · by_cases hzx : z < x
              · simp [lexLe, hxz, hzx] at hbc
              · have h3 : x = z := le_antisymm (not_lt.mp hzx) (not_lt.mp hxz)
                subst h3
                simp [lexLe, lt_self_iff_false] at hbc ⊢
                exact ih ys zs hab hbc

/-- Insert into an already sorted list, placing the new element before the
first existing element it compares less-or-equal to. -/
def insertSorted {α : Type} (le : α → α → Bool) (a : α) : List α → List α
  | [] => [a]
  | b :: l => if le a b then a :: b :: l else b :: insertSorted le a l

/-- Stable ascending sort by a boolean comparator. Rust Vec::sort_by is a
stable sort; for a total transitive comparator the stable ascending
permutation is unique, so this computes exactly the sort_by result. -/
def sortBy {α : Type} (le : α → α → Bool) : List α → List α
  | [] => []
  | a :: l => insertSorted le a (sortBy le l)

theorem insertSorted_perm {α : Type} (le : α → α → Bool) (a : α) (l : List α) :
    (insertSorted le a l).Perm (a :: l) := by
  induction l with
  | nil => exact List.Perm.refl _
  | cons b bs ih =>
    by_cases h : le a b = true
    · simp [insertSorted, h]
    · simp only [insertSorted, h, if_false, Bool.false_eq_true]
      exact (List.Perm.cons b ih).trans (List.Perm.swap a b bs)

theorem sortBy_perm {α : Type} (le : α → α → Bool) (l : List α) : (sortBy le l).Perm l := by
  induction l with
  | nil => exact List.Perm.refl _
  | cons a l ih => exact (insertSorted_perm le a (sortBy le l)).trans (List.Perm.cons a ih)

theorem mem_insertSorted {α : Type} (le : α → α → Bool) (a x : α) (l : List α) :
    x ∈ insertSorted le a l ↔ x = a ∨ x ∈ l := by
  constructor
  · intro hx
    have h := (insertSorted_perm le a l).mem_iff.mp hx
    simpa using h
  · intro hx
    apply (insertSorted_perm le a l).mem_iff.mpr
    simpa using hx

theorem pairwise_insertSorted {α : Type} (le : α → α → Bool)
    (htot : ∀ a b, le a b = true ∨ le b a = true)
    (htrans : ∀ a b c, le a b = true → le b c = true → le a c = true)
    (a : α) (l : List α) (hl : List.Pairwise (fun x y => le x y = true) l) :
    List.Pairwise (fun x y => le x y = true) (insertSorted le a l) := by
  induction l with
  | nil => simp [insertSorted]
  | cons b bs ih =>
    rcases List.pairwise_cons.mp hl with ⟨hb, hbs⟩
    by_cases h : le a b = true
    · simp only [insertSorted, h, if_true]
      refine List.pairwise_cons.mpr ⟨?_, hl⟩
      intro x hx
      rcases List.mem_cons.mp hx with hxb | hxbs
      · rw [hxb]; exact h
      · exact htrans a b x h (hb x hxbs)
    · simp only [insertSorted, h, if_false, Bool.false_eq_true]
      refine List.pairwise_cons.mpr ⟨?_, ih hbs⟩
      intro x hx
      rcases (mem_insertSorted le a x bs).mp hx with hxa | hxbs
      · rw [hxa]
        rcases htot a b with h1 | h1
        · exact absurd h1 h
        · exact h1
      · exact hb x hxbs

theorem pairwise_sortBy {α : Type} (le : α → α → Bool)
    (htot : ∀ a b, le a b = true ∨ le b a = true)
    (htrans : ∀ a b c, le a b = true → le b c = true → le a c = true)
    (l : List α) : List.Pairwise (fun x y => le x y = true) (sortBy le l) := by
  induction l with
  | nil => simp [sortBy]
  | cons a l ih => exact pairwise_insertSorted le htot htrans a (sortBy le l) ih

/-- Application record from application.rs as consumed by launcher.rs and
widgets/application_list.rs: display name, executable filename, argument
vector, icon glyph and the Terminal flag of the desktop entry. -/
structure Application where
  name : List Char
  filename : List Char
  args : List (List Char)
  icon : List Char
  terminal : Bool
deriving Repr, DecidableEq

/-- DesktopEntry record from desktop_entry.rs as consumed by app.rs:
display name, Exec command, icon glyph and Terminal flag. -/
structure DesktopEntry where
  name : List Char
  exec : List Char
  icon : List Char
  terminal : Bool
deriving Repr, DecidableEq

/-- Match predicate used by ApplicationListState::update: the lowercased
display name contains the lowercased filter text. -/
def appMatches (filter : List Char) (entry : Application) : Bool :=
  containsStr (toLowerStr entry.name) (toLowerStr filter)

/-- ApplicationListState::update from widgets/application_list.rs: keep the
applications whose lowercased name contains the lowercased filter, then
stable-sort by comparing lowercased names. -/
def ApplicationListState.update (applications : List Application) (filter : List Char) :
    List Application :=
  sortBy (fun a b => lexLe (toLowerStr a.name) (toLowerStr b.name))
    (applications.filter (appMatches filter))

/-- The recomputation of filtered_desktop_apps in the App widget render
path (app.rs): the same case-insensitive containment match, followed by a
stable sort by the raw case-sensitive name comparison a.name.cmp(b.name). -/
def App.render_filtered (desktop_apps : List DesktopEntry) (filter : List Char) :
    List DesktopEntry :=
  sortBy (fun a b => lexLe a.name b.name)
    (desktop_apps.filter (fun app => containsStr (toLowerStr app.name) (toLowerStr filter)))

/-- C6: for every catalog and every filter text the filter engine returns
exactly the entries whose display name contains the filter text
case-insensitively: the result is a permutation of the matching entries,
every returned entry matches, every matching catalog entry is returned, and
the empty filter text returns every catalog entry.  The App widget variant
selects the same set. -/
theorem update_returns_exactly_matches (applications : List Application)
    (desktop_apps : List DesktopEntry) (filter : List Char) :
    (ApplicationListState.update applications filter).Perm
      (applications.filter (appMatches filter))
    ∧ (∀ e ∈ ApplicationListState.update applications filter, appMatches filter e = true)
    ∧ (∀ e ∈ applications, appMatches filter e = true →
        e ∈ ApplicationListState.update applications filter)
    ∧ (ApplicationListState.update applications []).Perm applications
    ∧ (App.render_filtered desktop_apps filter).Perm
        (desktop_apps.filter
          (fun app => containsStr (toLowerStr app.name) (toLowerStr filter))) := by
  have hperm : (ApplicationListState.update applications filter).Perm
      (applications.filter (appMatches filter)) := sortBy_perm _ _
  refine ⟨hperm, ?_, ?_, ?_, sortBy_perm _ _⟩
  · intro e he
    exact (List.mem_filter.mp (hperm.mem_iff.mp he)).2
  · intro e he hm
    exact ((sortBy_perm _ _).mem_iff).mpr (List.mem_filter.mpr ⟨he, hm⟩)
  · have hall : applications.filter (appMatches []) = applications := by
      apply List.filter_eq_self.mpr
      intro e _
      unfold appMatches toLowerStr
      simpa using containsStr_nil (List.map Char.toLower e.name)
    have h2 : (ApplicationListState.update applications []).Perm
        (applications.filter (appMatches [])) := sortBy_perm _ _
    rw [hall] at h2
    exact h2

def firefoxApp : Application :=
  ⟨['F','i','r','e','f','o','x'], ['f','i','r','e','f','o','x'], [], [], false⟩

def filesApp : Application := ⟨['F','i','l','e','s'], ['f','i','l','e','s'], [], [], false⟩

def termEmuApp : Application :=
  ⟨['T','e','r','m','i','n','a','l'], ['t','e','r','m'], [], [], false⟩

/-- Closed instance of C6 on the spec scenario catalog: filtering
[Firefox, Files, Terminal] with filter text "fire" returns Firefox. -/
theorem update_returns_exactly_matches_witness :
    firefoxApp ∈ ApplicationListState.update [firefoxApp, filesApp, termEmuApp]
      ['f','i','r','e'] :=
  (update_returns_exactly_matches [firefoxApp, filesApp, termEmuApp] []
    ['f','i','r','e']).2.2.1 firefoxApp (by decide) (by decide)

/-- C7 (amended): ApplicationListState::update, the filter engine of the
adopted launcher variant, returns its result sorted in case-insensitive
ascending lexicographic order of display name, and with the empty filter
text it returns the whole catalog in that order. -/
theorem update_sorted_case_insensitive (applications : List Application) (filter : List Char) :
    List.Pairwise
      (fun a b => lexLe (toLowerStr a.name) (toLowerStr b.name) = true)
      (ApplicationListState.update applications filter)
    ∧ (ApplicationListState.update applications []).Perm applications := by
  constructor
  · exact pairwise_sortBy
      (fun a b => lexLe (toLowerStr a.name) (toLowerStr b.name))
      (fun a b => lexLe_total (toLowerStr a.name) (toLowerStr b.name))
      (fun a b c hab hbc =>
        lexLe_trans (toLowerStr a.name) (toLowerStr b.name) (toLowerStr c.name) hab hbc)
      (applications.filter (appMatches filter))
  · have hall : applications.filter (appMatches []) = applications := by
      apply List.filter_eq_self.mpr
      intro e _
      unfold appMatches toLowerStr
      simpa using containsStr_nil (List.map Char.toLower e.name)
    have h2 : (ApplicationListState.update applications []).Perm
        (applications.filter (appMatches [])) := sortBy_perm _ _
    rw [hall] at h2
    exact h2

def entryLowA : DesktopEntry := ⟨['a'], ['a'], [], false⟩

def entryCapB : DesktopEntry := ⟨['B'], ['b'], [], false⟩

/-- C7 (counterexample): the App widget filter path sorts by the raw
case-sensitive name comparison; on the catalog with names "a" and "B" and
the empty filter text it returns the names in the order ["B", "a"], which
is not case-insensitive ascending lexicographic order. -/
theorem render_filtered_not_case_insensitive_sorted :
    App.render_filtered [entryLowA, entryCapB] [] = [entryCapB, entryLowA]
    ∧ ¬ List.Pairwise
        (fun a b => lexLe (toLowerStr a.name) (toLowerStr b.name) = true)
        (App.render_filtered [entryLowA, entryCapB] []) := by
  constructor
  · decide
  · decide

/-- One observation of waitpid(child, WNOHANG) inside the parent loop of
Launcher::select_application. -/
inductive WaitRes
  | stillAlive
  | otherStatus
  | errWait
deriving Repr, DecidableEq

/-- Which copy of the process the fork call reports, or its failure. -/
inductive ForkRes
  | parentCopy
  | childCopy
  | forkFailed
deriving Repr, DecidableEq

/-- The ppid field of a /proc stat record, the only field launcher.rs
reads. -/
structure ProcStat where
  ppid : Int
deriving Repr, DecidableEq

/-- Observable fate of the launcher process after select_application. -/
inductive Outcome
  | returnedToUi
  | imageReplaced (filename : List Char) (args : List (List Char))
  | exitedCode (code : Nat)
  | panicked
  | stillLooping
deriving Repr, DecidableEq

/-- Kill signals sent and final fate of the parent copy while it runs the
waitpid loop over the successive poll observations. -/
structure PollOutcome where
  kills : List Int
  outcome : Outcome
deriving Repr, DecidableEq

/-- The parent arm of the fork match in Launcher::select_application: an
unbounded loop over waitpid(child, WNOHANG) observations.  Ok(StillAlive)
sends SIGTERM to the resolved terminal pid and exits with status 0; Err
runs todo and panics; every other Ok status sleeps 10 ms and polls again.
An exhausted observation list means the loop is still running. -/
def parentPollLoop (terminal_pid : Int) : List WaitRes → PollOutcome
  | [] => ⟨[], Outcome.stillLooping⟩
  | WaitRes.stillAlive :: _ => ⟨[terminal_pid], Outcome.exitedCode 0⟩
  | WaitRes.errWait :: _ => ⟨[], Outcome.panicked⟩
  | WaitRes.otherStatus :: rest => parentPollLoop terminal_pid rest

/-- Result of one run of Launcher::select_application, given the selected
application and the OS behaviour it observes. -/
structure SelectResult where
  restoredTerminal : Bool
  kills : List Int
  forkCalled : Bool
  outcome : Outcome
deriving Repr, DecidableEq

/-- Launcher::select_application from launcher.rs, for an already selected
application.  procTable models Process::new(pid) followed by stat(): none
means one of the two unwrap calls panics.  execOk tells whether an execvp
call replaces the image (on failure execvp returns and the surrounding
function falls through).  polls are the successive waitpid observations
made by the parent copy. -/
def Launcher.select_application (application : Application)
    (procTable : Int → Option ProcStat) (shell_pid : Int)
    (forkRes : ForkRes) (polls : List WaitRes) (execOk : Bool) : SelectResult :=
  if application.terminal then
    { restoredTerminal := true, kills := [], forkCalled := false,
      outcome :=
        if execOk then Outcome.imageReplaced application.filename application.args
        else Outcome.returnedToUi }
  else
    match procTable shell_pid with
    | none =>
      { restoredTerminal := false, kills := [], forkCalled := false,
        outcome := Outcome.panicked }
    | some st =>
      match forkRes with
      | ForkRes.parentCopy =>
        { restoredTerminal := false, kills := (parentPollLoop st.ppid polls).kills,
          forkCalled := true, outcome := (parentPollLoop st.ppid polls).outcome }
      | ForkRes.childCopy =>
        { restoredTerminal := false, kills := [], forkCalled := true,
          outcome :=
            if execOk then Outcome.imageReplaced application.filename application.args
            else Outcome.returnedToUi }
      | ForkRes.forkFailed =>
        { restoredTerminal := false, kills := [], forkCalled := true,
          outcome := Outcome.panicked }

def geditApp : Application :=
  ⟨['g','e','d','i','t'], ['g','e','d','i','t'], [['g','e','d','i','t']], [], false⟩

/-- C1: in the Detach path a child that has already exited is observed as a
non-StillAlive status, so the loop sleeps and polls again, and the next
waitpid on the reaped child errors, hitting todo and panicking; a status
check that errors directly panics at once.  The launcher neither reports
the failure nor keeps running; it does leave the terminal unsignalled. -/
theorem detach_child_exited_hits_todo_panic :
    Launcher.select_application geditApp (fun _ => some ⟨77⟩) 5
      ForkRes.parentCopy [WaitRes.otherStatus, WaitRes.errWait] true
      = ⟨false, [], true, Outcome.panicked⟩
    ∧ Launcher.select_application geditApp (fun _ => some ⟨77⟩) 5
        ForkRes.parentCopy [WaitRes.errWait] true
        = ⟨false, [], true, Outcome.panicked⟩ := by
  constructor
  · rfl
  · rfl

/-- C2: in the Detach path, whenever the forked child is observed still
running, the parent sends SIGTERM exactly once, to the ppid resolved from
the shell's process-table entry before the fork, and exits the launcher
with status 0. -/
theorem detach_child_alive_signals_once_and_exits_zero (application : Application)
    (procTable : Int → Option ProcStat) (shell_pid : Int) (st : ProcStat)
    (polls : List WaitRes) (execOk : Bool)
    (hterm : application.terminal = false)
    (hproc : procTable shell_pid = some st)
    (hne : polls ≠ [])
    (halive : ∀ r ∈ polls, r = WaitRes.stillAlive) :
    Launcher.select_application application procTable shell_pid
      ForkRes.parentCopy polls execOk
      = ⟨false, [st.ppid], true, Outcome.exitedCode 0⟩ := by
  cases polls with
  | nil => exact absurd rfl hne
  | cons r rest =>
    have hr : r = WaitRes.stillAlive := halive r (List.mem_cons_self r rest)
    subst hr
    simp [Launcher.select_application, hterm, hproc, parentPollLoop]

/-- Closed instance of C2: a child that stays alive through the poll makes
the parent kill the resolved terminal pid 42 once and exit 0. -/
theorem detach_child_alive_signals_once_and_exits_zero_witness :
    Launcher.select_application geditApp (fun _ => some ⟨42⟩) 7
      ForkRes.parentCopy [WaitRes.stillAlive] true
      = ⟨false, [42], true, Outcome.exitedCode 0⟩ :=
  detach_child_alive_signals_once_and_exits_zero geditApp (fun _ => some ⟨42⟩) 7 ⟨42⟩
    [WaitRes.stillAlive] true rfl rfl (by simp)
    (fun r hr => List.mem_singleton.mp hr)

/-- C3: the poll loop of the Detach parent has no maximum attempt count:
for every number n of successive polls that report the child already
exited, the loop has sent no signal and is still running after those n
polls, so it is not a bounded retry loop and does not reach a terminal
outcome within any fixed budget. -/
theorem detach_poll_loop_has_no_attempt_bound (terminal_pid : Int) (n : Nat) :
    parentPollLoop terminal_pid (List.replicate n WaitRes.otherStatus)
      = ⟨[], Outcome.stillLooping⟩ := by
  induction n with
  | zero => rfl
  | succ m ih => simpa [List.replicate_succ, parentPollLoop] using ih

/-- C4: when the ancestry lookup fails (Process::new or stat returns an
error), select_application panics on unwrap before ever calling fork: no
fork, no exec, no terminal signal, and the launcher crashes instead of
degrading. -/
theorem detach_ancestry_failure_panics_before_fork :
    Launcher.select_application geditApp (fun _ => none) 5
      ForkRes.parentCopy [] true
      = ⟨false, [], false, Outcome.panicked⟩ := rfl

def vimApp : Application :=
  ⟨['v','i','m'], ['v','i','m'], [['v','i','m']], [], true⟩

/-- C5 (counterexample): for a terminal application whose exec fails, the
discarded execvp error is followed by a plain return, so control goes back
to the interactive loop; the process does not terminate with a nonzero
status. -/
theorem replace_in_place_exec_failure_returns_to_ui :
    Launcher.select_application vimApp (fun _ => some ⟨77⟩) 5
      ForkRes.parentCopy [] false
      = ⟨true, [], false, Outcome.returnedToUi⟩ := rfl

/-- C5 (amended): every selected application with the terminal flag set
takes the replace-in-place path: the terminal is restored and execvp is
attempted on the target filename and argument list, with no fork and no
terminal signal; if the exec succeeds the process image is replaced, and if
it fails the error is discarded and select_application returns to the
interactive loop instead of terminating the process. -/
theorem terminal_app_restore_then_exec_behavior (application : Application)
    (procTable : Int → Option ProcStat) (shell_pid : Int)
    (forkRes : ForkRes) (polls : List WaitRes)
    (hterm : application.terminal = true) :
    Launcher.select_application application procTable shell_pid forkRes polls true
      = ⟨true, [], false, Outcome.imageReplaced application.filename application.args⟩
    ∧ Launcher.select_application application procTable shell_pid forkRes polls false
      = ⟨true, [], false, Outcome.returnedToUi⟩ := by
  constructor
  · simp [Launcher.select_application, hterm]
  · simp [Launcher.select_application, hterm]

/-- Closed instance of the amended C5 at a concrete terminal application. -/
theorem terminal_app_restore_then_exec_behavior_witness :
    Launcher.select_application vimApp (fun _ => some ⟨77⟩) 5
      ForkRes.parentCopy [] true
      = ⟨true, [], false, Outcome.imageReplaced vimApp.filename vimApp.args⟩ :=
  (terminal_app_restore_then_exec_behavior vimApp (fun _ => some ⟨77⟩) 5
    ForkRes.parentCopy [] rfl).1

/-- One entry of a scanned directory: base filename, whether it is a
regular file, its extension, and the result of DesktopEntry::from_file on
it.  Parsing lives in desktop_entry.rs and is an input of this model; none
is a rejected descriptor. -/
structure DirFile where
  base : List Char
  isFile : Bool
  ext : Option (List Char)
  parsed : Option DesktopEntry
deriving Repr, DecidableEq

def desktopExt : List Char := "desktop".toList

/-- Per-file acceptance of the scan loop in App::get_desktop_apps: regular
files with the desktop extension whose parse succeeds. -/
def acceptFile (f : DirFile) : Option DesktopEntry :=
  if f.isFile = true ∧ f.ext = some desktopExt then f.parsed else none

def dirAccepted (files : List DirFile) : List DesktopEntry := files.filterMap acceptFile

/-- The directory loop of App::get_desktop_apps: missing or non-directory
paths are skipped, and every accepted descriptor of an existing directory
is pushed in scan order. -/
def buildCatalog (dirs : List (Option (List DirFile))) : List DesktopEntry :=
  dirs.foldl
    (fun apps dir =>
      match dir with
      | none => apps
      | some files => apps ++ dirAccepted files) []

def usrShareDir : List Char := "/usr/share/applications/".toList

def localShareSuffix : List Char := "/.local/share/applications/".toList

/-- App::get_desktop_apps from app.rs: reads HOME, whose absence makes the
expect call panic (modelled as none), assembles the two scan directories,
and runs the scan loop.  fs maps a directory path to its contents, none
meaning the path does not exist or is not a directory. -/
def App.get_desktop_apps (homeVar : Option (List Char))
    (fs : List Char → Option (List DirFile)) : Option (List DesktopEntry) :=
  match homeVar with
  | none => none
  | some home => some (buildCatalog [fs usrShareDir, fs (home ++ localShareSuffix)])

theorem buildCatalog_go (dirs : List (Option (List DirFile))) (acc : List DesktopEntry) :
    dirs.foldl
      (fun apps dir =>
        match dir with
        | none => apps
        | some files => apps ++ dirAccepted files) acc
    = acc ++ (dirs.map
        (fun d =>
          match d with
          | none => ([] : List DesktopEntry)
          | some files => dirAccepted files)).flatten := by
  induction dirs generalizing acc with
  | nil => simp
  | cons d ds ih =>
    cases d with
    | none => simp [ih]
    | some files => simp [ih]

def alphaEntry : DesktopEntry := ⟨"Alpha".toList, ['a'], [], false⟩

def betaEntry : DesktopEntry := ⟨"Beta".toList, ['a'], [], false⟩

def fileAlpha : DirFile := ⟨['a'], true, some desktopExt, some alphaEntry⟩

def fileBeta : DirFile := ⟨['a'], true, some desktopExt, some betaEntry⟩

def homeTxt : List Char := "/home/user".toList

def fsCollide : List Char → Option (List DirFile) :=
  fun p =>
    if p = usrShareDir then some [fileAlpha]
    else if p = homeTxt ++ localShareSuffix then some [fileBeta] else none

/-- C8 (counterexample): two scanned directories each holding a descriptor
file with the same base filename "a" produce a catalog containing BOTH
parsed entries, Alpha and Beta, not a single deduplicated entry taken from
one directory. -/
theorem catalog_keeps_both_colliding_descriptors :
    App.get_desktop_apps (some homeTxt) fsCollide = some [alphaEntry, betaEntry] := by
  decide

/-- C8 (amended): the catalog builder performs no deduplication: its output
is the concatenation, in scan order, of the accepted descriptors of every
existing directory, and every accepted descriptor of every scanned
directory enters the catalog, base-filename collisions included. -/
theorem catalog_no_dedup_concat (dirs : List (Option (List DirFile))) :
    buildCatalog dirs
      = (dirs.map
          (fun d =>
            match d with
            | none => ([] : List DesktopEntry)
            | some files => dirAccepted files)).flatten
    ∧ ∀ (files : List DirFile) (e : DesktopEntry),
        some files ∈ dirs → e ∈ dirAccepted files → e ∈ buildCatalog dirs := by
  have hmain : buildCatalog dirs
      = (dirs.map
          (fun d =>
            match d with
            | none => ([] : List DesktopEntry)
            | some files => dirAccepted files)).flatten := by
    unfold buildCatalog
    simpa using buildCatalog_go dirs []
  refine ⟨hmain, ?_⟩
  intro files e hd he
  rw [hmain]
  apply List.mem_flatten.mpr
  exact ⟨dirAccepted files, List.mem_map_of_mem _ hd, he⟩

/-- Closed instance of the amended C8: the lower-priority duplicate Beta is
retained in the built catalog alongside Alpha. -/
theorem catalog_no_dedup_concat_witness :
    betaEntry ∈ buildCatalog [some [fileAlpha], some [fileBeta]] :=
  (catalog_no_dedup_concat [some [fileAlpha], some [fileBeta]]).2 [fileBeta] betaEntry
    (by decide) (by decide)

/-- Outcome of App::select_app from app.rs. -/
inductive AppSelectOutcome
  | returned
  | panicked
  | replacedImage (cmd : List Char)
  | detachSequence
deriving Repr, DecidableEq

/-- App::select_app from app.rs: with a selection present, index the
filtered list (unchecked indexing panics when out of bounds), then read
SHELL, whose absence makes the expect call panic, then either restore the
terminal and exec the entry command for terminal applications, or run the
fork, kill and disown detach sequence (collapsed to one outcome here) for
graphical ones. -/
def App.select_app (sel : Option Nat) (filtered_desktop_apps : List DesktopEntry)
    (shellVar : Option (List Char)) (execOk : Bool) : AppSelectOutcome :=
  match sel with
  | none => AppSelectOutcome.returned
  | some i =>
    match filtered_desktop_apps.get? i with
    | none => AppSelectOutcome.panicked
    | some app =>
      match shellVar with
      | none => AppSelectOutcome.panicked
      | some _ =>
        if app.terminal then
          if execOk then AppSelectOutcome.replacedImage app.exec
          else AppSelectOutcome.returned
        else AppSelectOutcome.detachSequence

def entryKitty : DesktopEntry := ⟨"kitty".toList, "kitty".toList, [], true⟩

/-- C9 (counterexample): with HOME defined and SHELL undefined, startup
succeeds (the catalog build reads only HOME), so the program reaches the
interactive loop; the absence of SHELL is first detected at launch time,
where select_app panics on the selected application. -/
theorem shell_absence_detected_at_launch_not_startup :
    (App.get_desktop_apps (some homeTxt) fsCollide).isSome = true
    ∧ App.select_app (some 0) [entryKitty] none true = AppSelectOutcome.panicked := by
  constructor
  · rfl
  · rfl

/-- C9 (amended): absence of HOME is fatal at startup, before the
interactive loop, for every filesystem; absence of SHELL is not a startup
condition: startup succeeds whenever HOME is defined, and the missing SHELL
first panics at launch time inside select_app for every valid selection. -/
theorem home_fatal_at_startup_shell_at_launch
    (fs : List Char → Option (List DirFile)) (home : List Char)
    (filtered : List DesktopEntry) (i : Nat) (execOk : Bool) :
    App.get_desktop_apps none fs = none
    ∧ (App.get_desktop_apps (some home) fs).isSome = true
    ∧ (i < filtered.length →
        App.select_app (some i) filtered none execOk = AppSelectOutcome.panicked) := by
  refine ⟨rfl, rfl, ?_⟩
  intro hi
  show (match filtered.get? i with
    | none => AppSelectOutcome.panicked
    | some app =>
      match (none : Option (List Char)) with
      | none => AppSelectOutcome.panicked
      | some _ =>
        if app.terminal then
          if execOk then AppSelectOutcome.replacedImage app.exec
          else AppSelectOutcome.returned
        else AppSelectOutcome.detachSequence)
    = AppSelectOutcome.panicked
  cases filtered.get? i <;> rfl

/-- Closed instance of the amended C9: a valid selection with SHELL absent
panics at launch time. -/
theorem home_fatal_at_startup_shell_at_launch_witness :
    App.select_app (some 0) [entryLowA] none true = AppSelectOutcome.panicked :=
  (home_fatal_at_startup_shell_at_launch fsCollide homeTxt [entryLowA] 0 true).2.2
    (by decide)

/-- Outcome of ApplicationListState::selected. -/
inductive SelectedRes
  | noneSelected
  | someApp (a : Application)
  | panicked
deriving Repr, DecidableEq

/-- ApplicationListState::selected from widgets/application_list.rs:
returns None when nothing is selected, and otherwise indexes
filtered_applications[i] without a bounds check, which panics when i is out
of bounds. -/
def ApplicationListState.selected (filtered_applications : List Application)
    (listSelected : Option Nat) : SelectedRes :=
  match listSelected with
  | none => SelectedRes.noneSelected
  | some i =>
    match filtered_applications.get? i with
    | some a => SelectedRes.someApp a
    | none => SelectedRes.panicked

/-- C10: with a selection index i, selected returns the i-th filtered
application whenever the invariant i < filtered_applications.length holds,
and panics exactly when the invariant fails, which a filter recomputation
that shrinks the filtered list can cause for a stale index. -/
theorem selected_total_iff_index_in_bounds (filtered_applications : List Application)
    (i : Nat) :
    (∀ (h : i < filtered_applications.length),
      ApplicationListState.selected filtered_applications (some i)
        = SelectedRes.someApp (filtered_applications.get ⟨i, h⟩))
    ∧ (filtered_applications.length ≤ i →
      ApplicationListState.selected filtered_applications (some i)
        = SelectedRes.panicked) := by
  constructor
  · intro h
    simp [ApplicationListState.selected, List.getElem?_eq_getElem h]
  · intro h
    simp [ApplicationListState.selected, List.getElem?_eq_none h]

/-- Closed instance of C10: after a filter recomputation shrinks the
filtered list to empty, the stale index 0 makes selected panic, while on
the original one-entry list the same index is in bounds and returns the
entry. -/
theorem selected_total_iff_index_in_bounds_witness :
    ApplicationListState.selected
      (ApplicationListState.update [firefoxApp] ['z','z','z']) (some 0)
      = SelectedRes.panicked
    ∧ ApplicationListState.selected [firefoxApp] (some 0)
      = SelectedRes.someApp firefoxApp :=
  ⟨(selected_total_iff_index_in_bounds
      (ApplicationListState.update [firefoxApp] ['z','z','z']) 0).2 (by decide),
   (selected_total_iff_index_in_bounds [firefoxApp] 0).1 (by decide)⟩

end LauncherSpec
